import Mathlib

/-!
# Verification of the `lda` document layer (`src/lda/document.go`)

A shallow embedding of the per-document storage layer of the `lda-go`
repository: the `Document` data structure, its construction from raw text
(`NewDocument`), the occurrence cursor (`WordIterator` with `Done`, `Next`,
`Topic`, `SetTopic`, `Word`), and corpus ingestion (`LoadCorpus`).

Modelling conventions:
- Go slices become Lean `List`s; Go `int` indices and topic labels become
  `Nat` (all values stored by the code are non-negative: loop counters,
  guarded topic labels); histogram entries become `Int` (Go `int` counters
  that are decremented and incremented).
- Go `panic` and returned `error`s both become `Except String` results.
- Text handling is modelled at the level of ASCII: Go's `strings.ToLower`
  and `unicode.IsSpace` cover all of Unicode, the model covers the ASCII
  subset (every concrete input considered here is ASCII).
- `sort.Strings` (an in-place comparison sort) is modelled by insertion
  sort over `String`'s lexicographic order; on equal keys the two agree
  because equal strings are identical.
- File I/O in `LoadCorpus` is abstracted to the list of lines produced by
  `bufio.Reader.ReadLine`, each paired with its `isPrefix` flag.
-/

/-! ## The Document data model (document.go lines 28-35) -/

structure Document where
  unique_words : List String
  wordtopics_indices : List Nat
  wordtopics : List Nat
  topic_histogram : List Int
deriving DecidableEq, Repr

/-- Model of `WordIterator` (document.go lines 37-41).  The Go iterator holds a
pointer to the document it mutates; the embedding carries the document as
part of the iterator state. -/
structure IterState where
  doc : Document
  unique_word_index : Nat
  word_topic_index : Nat
deriving DecidableEq, Repr

/-! ## Tokenization (document.go lines 106-110, 120, 124) -/

/-- The character class of `SymbolsRegexp` (document.go line 106). -/
def isSymbolChar (c : Char) : Bool :=
  c == ';' || c == '.' || c == ',' || c == '?' || c == '!' || c == '\"' || c == ':'

/-- Model of `RemoveTailingSymbols` (document.go lines 108-110): the regexp replaces
every occurrence of the seven punctuation characters by the empty string,
i.e. deletes them. -/
def RemoveTailingSymbols (s : String) : String :=
  String.mk (s.data.filter (fun c => !(isSymbolChar c)))

/-- Model of `strings.ToLower`, restricted to ASCII (`Char.toLower` lowers A-Z). -/
def goToLower (s : String) : String :=
  String.mk (s.data.map Char.toLower)

/-- The ASCII part of Go's `unicode.IsSpace`. -/
def goIsSpace (c : Char) : Bool :=
  c == ' ' || c == '\t' || c == '\n' || c == (Char.ofNat 11) || c == (Char.ofNat 12) || c == '\r'

/-- Accumulator pass of `strings.Fields`: split at whitespace runs,
dropping empty fields.  `acc` holds the current token reversed. -/
def fieldsAux : List Char → List Char → List String
  | [], acc => if acc.isEmpty then [] else [String.mk acc.reverse]
  | c :: cs, acc =>
    if goIsSpace c then
      if acc.isEmpty then fieldsAux cs []
      else String.mk acc.reverse :: fieldsAux cs []
    else fieldsAux cs (c :: acc)

/-- Model of `strings.Fields` (ASCII whitespace). -/
def goFields (s : String) : List String := fieldsAux s.data []

/-- The token list of document.go line 120:
`strings.Fields(strings.ToLower(RemoveTailingSymbols(text)))`. -/
def documentTokens (text : String) : List String :=
  goFields (goToLower (RemoveTailingSymbols text))

/-- Lexicographic comparison of character lists: Go's `<` on strings
(byte order, which is codepoint order on ASCII). -/
def charListLt : List Char → List Char → Bool
  | [], [] => false
  | [], _ :: _ => true
  | _ :: _, [] => false
  | a :: as, b :: bs => if a < b then true else if b < a then false else charListLt as bs

/-- Go's `<` on strings. -/
def strLt (a b : String) : Bool := charListLt a.data b.data

/-- Insertion step of the sort modelling `sort.Strings`. -/
def insertSorted (w : String) : List String → List String
  | [] => [w]
  | x :: xs => if strLt x w then x :: insertSorted w xs else w :: x :: xs

/-- Model of `sort.Strings` (document.go line 124), an insertion sort:
ascending lexicographic order, extensionally the Go result since equal
strings are indistinguishable. -/
def sortStrings : List String → List String
  | [] => []
  | w :: ws => insertSorted w (sortStrings ws)

/-- The sorted word list that `NewDocument` builds its document from. -/
def sortedWords (text : String) : List String :=
  sortStrings (documentTokens text)

/-! ## Document construction (document.go lines 115-149) -/

/-- The construction loop of `NewDocument` (document.go lines 133-143):
scan the sorted words with index `i`; when the word differs from `prev`,
append it to `unique_words` and append `i` to `wordtopics_indices`; when it
repeats `prev`, append the last appended offset again
(`doc.wordtopics_indices[len(doc.wordtopics_indices)-1]` in the source),
carried here as the accumulator `last`.  The initial `last = 0` is never
read: the first word is a nonempty token, hence differs from the initial
`prev = ""` (the source would panic on an out-of-range read there). -/
def docLoop : List String → String → Nat → Nat → List String × List Nat
  | [], _, _, _ => ([], [])
  | w :: ws, prev, i, last =>
    if w ≠ prev then
      let r := docLoop ws w (i + 1) i
      (w :: r.1, i :: r.2)
    else
      let r := docLoop ws prev (i + 1) last
      (r.1, last :: r.2)

/-- Model of `Document.IsValid` (document.go lines 151-156). -/
def Document.IsValid (d : Document) : Bool :=
  decide (1 ≤ d.unique_words.length) &&
    (d.wordtopics_indices.length == d.wordtopics.length) &&
    decide (2 ≤ d.wordtopics.length) &&
    decide (2 ≤ d.topic_histogram.length)

/-- Model of `Document.Length` (document.go lines 158-160). -/
def Document.Length (d : Document) : Nat := d.wordtopics.length

/-- Model of `NewDocument` (document.go lines 115-149). -/
def NewDocument (text : String) (num_topics : Nat) : Except String Document :=
  if num_topics ≤ 1 then .error "num_topics must be >= 2"
  else
    let words := sortedWords text
    if words.length ≤ 1 then .error ("Document less than 2 words:" ++ text)
    else
      let r := docLoop words "" 0 0
      let doc : Document :=
        ⟨r.1, r.2, List.replicate words.length 0,
          (List.replicate num_topics (0 : Int)).set 0 (words.length : Int)⟩
      if doc.IsValid then .ok doc else .error "Document is invalid"

/-! ## The cursor (document.go lines 43-104) -/

/-- Model of `NewWordIterator` (document.go lines 43-53).  The `d == nil` case has
no counterpart in the embedding (a `Document` value always exists). -/
def NewWordIterator (d : Document) : Except String IterState :=
  if d.IsValid then .ok ⟨d, 0, 0⟩
  else .error "NewWordIterator with an invalid Document"

/-- The boolean result of `WordIterator.Done` (document.go lines 55-61). -/
def IterState.doneB (s : IterState) : Bool :=
  s.unique_word_index == s.doc.unique_words.length

/-- Go `WordIterator.Done` panics when `unique_word_index` exceeds
`len(unique_words)` (document.go lines 56-59); every cursor operation
calls it first, so the operations below model that panic as an error. -/
def IterState.doneCheck (s : IterState) : Except String Bool :=
  if s.doc.unique_words.length < s.unique_word_index then
    .error "unique_word_index out of range"
  else .ok s.doneB

/-- Model of `WordIterator.Next` (document.go lines 63-74): increment
`word_topic_index`; if it reaches `len(wordtopics)` or the value of
`wordtopics_indices[unique_word_index+1]`, also increment
`unique_word_index`.  The Go expression short-circuits, so the
`wordtopics_indices` read (which panics out of range) happens only when
the first disjunct is false. -/
def IterState.next (s : IterState) : Except String IterState :=
  match s.doneCheck with
  | .error e => .error e
  | .ok true => .error "Must not call Next() when Done() is true."
  | .ok false =>
    let wti := s.word_topic_index + 1
    if s.doc.wordtopics.length ≤ wti then
      .ok ⟨s.doc, s.unique_word_index + 1, wti⟩
    else
      match s.doc.wordtopics_indices.get? (s.unique_word_index + 1) with
      | none => .error "wordtopics_indices index out of range"
      | some bound =>
        if bound ≤ wti then .ok ⟨s.doc, s.unique_word_index + 1, wti⟩
        else .ok ⟨s.doc, s.unique_word_index, wti⟩

/-- Model of `WordIterator.Topic` (document.go lines 76-81). -/
def IterState.topic (s : IterState) : Except String Nat :=
  match s.doneCheck with
  | .error e => .error e
  | .ok true => .error "Must not call Topic() when Done() is true."
  | .ok false =>
    match s.doc.wordtopics.get? s.word_topic_index with
    | none => .error "wordtopics index out of range"
    | some t => .ok t

/-- Model of `WordIterator.SetTopic` (document.go lines 83-97): after the `Done`
and range guards, decrement `topic_histogram[old]`, increment
`topic_histogram[new_topic]`, and overwrite
`wordtopics[word_topic_index]`.  Go further rejects `new_topic < 0`,
which a `Nat` argument cannot express. -/
def IterState.setTopic (s : IterState) (new_topic : Nat) : Except String IterState :=
  match s.doneCheck with
  | .error e => .error e
  | .ok true => .error "Must not call SetTopic() when Done() is true."
  | .ok false =>
    if s.doc.topic_histogram.length ≤ new_topic then
      .error "new_topic is not less than len(topic_histogram)"
    else
      match s.doc.wordtopics.get? s.word_topic_index with
      | none => .error "wordtopics index out of range"
      | some old =>
        match s.doc.topic_histogram.get? old with
        | none => .error "topic_histogram index out of range"
        | some cnt =>
          let h1 := s.doc.topic_histogram.set old (cnt - 1)
          let h2 := h1.set new_topic (h1.getD new_topic 0 + 1)
          .ok ⟨⟨s.doc.unique_words, s.doc.wordtopics_indices,
                s.doc.wordtopics.set s.word_topic_index new_topic, h2⟩,
              s.unique_word_index, s.word_topic_index⟩

/-- Model of `WordIterator.Word` (document.go lines 99-104). -/
def IterState.word (s : IterState) : Except String String :=
  match s.doneCheck with
  | .error e => .error e
  | .ok true => .error "Must not call Word() when Done() is true."
  | .ok false =>
    match s.doc.unique_words.get? s.unique_word_index with
    | none => .error "unique_words index out of range"
    | some w => .ok w

/-! ## Cursor operation sequences -/

/-- One sampler-side cursor operation: an `advance` (`Next`) or a
`SetTopic` with the given label. -/
inductive CursorOp where
  | advance : CursorOp
  | setTopic : Nat → CursorOp
deriving DecidableEq, Repr

def IterState.step (s : IterState) : CursorOp → Except String IterState
  | .advance => s.next
  | .setTopic t => s.setTopic t

def IterState.run (s : IterState) : List CursorOp → Except String IterState
  | [] => .ok s
  | op :: ops =>
    match s.step op with
    | .ok s' => s'.run ops
    | .error e => .error e

/-- Number of occurrences a cursor visits before `Done` becomes true,
computed with explicit fuel; `none` when the fuel runs out or an
operation fails. -/
def countVisits : Nat → IterState → Option Nat
  | 0, _ => none
  | fuel + 1, s =>
    if s.doneB then some 0
    else
      match s.next with
      | .ok s' => (countVisits fuel s').map (· + 1)
      | .error _ => none

/-! ## Corpus ingestion (document.go lines 162-199) -/

/-- The read loop of `LoadCorpus` (document.go lines 175-193).  `pfx` is
the `is_prefix` flag bound by the first `ReadLine` (line 175): the loop
tests it on every iteration, but the reads inside the loop (line 192)
discard their own flag, so `pfx` never changes.  A line is handed to
`NewDocument` only when its length exceeds 15; a construction failure is
a Go `panic` (line 188), modelled as an error. -/
def loadLines (pfx : Bool) (num_topics : Nat) : List String → Except String (List Document)
  | [] => .ok []
  | line :: rest =>
    if pfx then .error ("Encountered a long line:" ++ line)
    else
      if 15 < line.length then
        match NewDocument line num_topics with
        | .error e =>
          .error ("Cannot create document from: " ++ line ++ " due to " ++ e)
        | .ok doc =>
          match loadLines pfx num_topics rest with
          | .ok docs => .ok (doc :: docs)
          | .error e => .error e
      else loadLines pfx num_topics rest

/-- Model of `LoadCorpus` (document.go lines 166-199) over an abstract source: the
list of `(line, isPrefix)` pairs that successive `ReadLine` calls yield
before `io.EOF`.  File-open and read errors are outside the model. -/
def LoadCorpus (source : List (String × Bool)) (num_topics : Nat) :
    Except String (List Document) :=
  match source with
  | [] => .ok []
  | (l, p) :: rest => loadLines p num_topics (l :: rest.map (fun x => x.1))

/-- The document the code builds for the spec's running example
"The cat sat on the Mat." with 3 topics. -/
def exampleDoc : Document :=
  ⟨["cat", "mat", "on", "sat", "the"], [0, 1, 2, 3, 4, 4],
    [0, 0, 0, 0, 0, 0], [6, 0, 0]⟩

/-! ## Specification predicates -/

/-- Position `s` is the start position of the maximal run of equal adjacent words
containing position `j` of `ws`: `s` is at most `j`, `s` sits at a group
boundary (position `0` or a change of word), and every position in
`(s, j]` carries the same word as its predecessor. -/
def GroupStart (ws : List String) (s j : Nat) : Prop :=
  s ≤ j ∧ (s = 0 ∨ ws.get? (s - 1) ≠ ws.get? s) ∧
    ∀ m, s < m → m ≤ j → ws.get? m = ws.get? (m - 1)

/-- The histogram of a document agrees with its labels: entry `t` counts
the occurrences labeled `t`, and the entries sum to the occurrence
count. -/
def HistSynced (d : Document) : Prop :=
  (∀ t, t < d.topic_histogram.length →
      d.topic_histogram.get? t = some ((d.wordtopics.count t : Int))) ∧
    d.topic_histogram.sum = (d.wordtopics.length : Int)

/-! ## Sanity checks of the embedding on the spec's running example -/

example : documentTokens "The cat sat on the Mat." = ["the", "cat", "sat", "on", "the", "mat"] := rfl

example : sortedWords "The cat sat on the Mat." = ["cat", "mat", "on", "sat", "the", "the"] := rfl

example :
    NewDocument "The cat sat on the Mat." 3 =
      .ok ⟨["cat", "mat", "on", "sat", "the"], [0, 1, 2, 3, 4, 4],
        [0, 0, 0, 0, 0, 0], [6, 0, 0]⟩ := rfl

example :
    NewDocument "the cat the" 2 =
      .ok ⟨["cat", "the"], [0, 1, 1], [0, 0, 0], [3, 0]⟩ := rfl

example :
    countVisits 10 ⟨⟨["cat", "the"], [0, 1, 1], [0, 0, 0], [3, 0]⟩, 0, 0⟩ = some 2 := rfl

/-! ## Generic list lemmas -/

theorem get?_some_lt {α : Type} {l : List α} {i : Nat} {a : α}
    (h : l.get? i = some a) : i < l.length := by
  rcases List.get?_eq_some.mp h with ⟨hlt, _⟩
  exact hlt

theorem getD_of_get? {α : Type} {l : List α} {i : Nat} {a : α} (d : α)
    (h : l.get? i = some a) : l.getD i d = a := by
  induction l generalizing i with
  | nil => simp at h
  | cons x xs ih =>
    cases i with
    | zero => simp at h; simp [List.getD, h]
    | succ n =>
      have h' : xs.get? n = some a := by simpa using h
      simpa [List.getD] using ih h'

theorem sum_set_int : ∀ (l : List Int) (i : Nat) (v : Int), i < l.length →
    (l.set i v).sum = l.sum - l.getD i 0 + v := by
  intro l
  induction l with
  | nil => intro i v h; simp at h
  | cons x xs ih =>
    intro i v h
    cases i with
    | zero => simp [List.getD]; ring
    | succ n =>
      have hn : n < xs.length := by simpa using h
      simp [List.getD, ih n v hn]
      ring

theorem count_set_int : ∀ (l : List Nat) (j : Nat) (old v t : Nat), l.get? j = some old →
    (((l.set j v).count t : Nat) : Int) =
      (l.count t : Int) - (if old = t then 1 else 0) + (if v = t then 1 else 0) := by
  intro l
  induction l with
  | nil => intro j old v t h; simp at h
  | cons x xs ih =>
    intro j old v t h
    cases j with
    | zero =>
      simp at h
      subst h
      simp [List.count_cons]
    | succ n =>
      have h' : xs.get? n = some old := by simpa using h
      have := ih n old v t h'
      simp [List.count_cons]
      split_ifs at this ⊢ <;> push_cast at this ⊢ <;> omega

/-! ## Tokenizer lemmas -/

theorem mem_fieldsAux_ne_empty :
    ∀ (cs acc : List Char) (w : String), w ∈ fieldsAux cs acc → w ≠ "" := by
  intro cs
  induction cs with
  | nil =>
    intro acc w hw
    by_cases ha : acc.isEmpty
    · simp [fieldsAux, ha] at hw
    · simp [fieldsAux, ha] at hw
      subst hw
      have : acc ≠ [] := by simpa [List.isEmpty_iff] using ha
      intro hc
      apply this
      have : acc.reverse = [] := by
        have := congrArg String.data hc
        simpa using this
      simpa using this
  | cons c cs ih =>
    intro acc w hw
    by_cases hs : goIsSpace c
    · by_cases ha : acc.isEmpty
      · exact ih [] w (by simpa [fieldsAux, hs, ha] using hw)
      · rw [fieldsAux] at hw
        simp [hs, ha] at hw
        rcases hw with hw | hw
        · subst hw
          have hne : acc ≠ [] := by simpa [List.isEmpty_iff] using ha
          intro hc
          apply hne
          have : acc.reverse = [] := by
            have := congrArg String.data hc
            simpa using this
          simpa using this
        · exact ih [] w hw
    · exact ih (c :: acc) w (by simpa [fieldsAux, hs] using hw)

theorem mem_insertSorted {w x : String} :
    ∀ {l : List String}, w ∈ insertSorted x l → w = x ∨ w ∈ l := by
  intro l
  induction l with
  | nil => intro h; simp [insertSorted] at h; exact Or.inl h
  | cons y ys ih =>
    intro h
    rw [insertSorted] at h
    by_cases hlt : strLt y x
    · simp [hlt] at h
      rcases h with h | h
      · exact Or.inr (by simp [h])
      · rcases ih h with h | h
        · exact Or.inl h
        · exact Or.inr (by simp [h])
    · simp [hlt] at h
      rcases h with h | h | h
      · exact Or.inl h
      · exact Or.inr (by simp [h])
      · exact Or.inr (by simp [h])

theorem mem_sortStrings {w : String} :
    ∀ {l : List String}, w ∈ sortStrings l → w ∈ l := by
  intro l
  induction l with
  | nil => intro h; simp [sortStrings] at h
  | cons x xs ih =>
    intro h
    rw [sortStrings] at h
    rcases mem_insertSorted h with h | h
    · simp [h]
    · exact List.mem_cons_of_mem _ (ih h)

theorem length_insertSorted (x : String) :
    ∀ (l : List String), (insertSorted x l).length = l.length + 1 := by
  intro l
  induction l with
  | nil => simp [insertSorted]
  | cons y ys ih =>
    rw [insertSorted]
    by_cases hlt : strLt y x
    · simp [hlt, ih]
    · simp [hlt]

theorem length_sortStrings : ∀ (l : List String), (sortStrings l).length = l.length := by
  intro l
  induction l with
  | nil => simp [sortStrings]
  | cons x xs ih =>
    rw [sortStrings, length_insertSorted, ih]
    simp

theorem sortedWords_length (text : String) :
    (sortedWords text).length = (documentTokens text).length :=
  length_sortStrings _

theorem mem_sortedWords_ne_empty {text : String} {w : String}
    (h : w ∈ sortedWords text) : w ≠ "" :=
  mem_fieldsAux_ne_empty _ _ _ (mem_sortStrings h)

/-! ## Construction-loop lemmas -/

theorem docLoop_cons_eq (w : String) (ws : List String) (prev : String) (i last : Nat) :
    docLoop (w :: ws) prev i last =
      ((if w = prev then [] else [w]) ++
          (docLoop ws w (i + 1) (if w = prev then last else i)).1,
        (if w = prev then last else i) ::
          (docLoop ws w (i + 1) (if w = prev then last else i)).2) := by
  by_cases h : w = prev
  · subst h
    rw [docLoop]
    simp
  · rw [docLoop]
    simp [h]

theorem docLoop_snd_length : ∀ (ws : List String) (prev : String) (i last : Nat),
    ((docLoop ws prev i last).2).length = ws.length := by
  intro ws
  induction ws with
  | nil => intro prev i last; simp [docLoop]
  | cons w ws ih =>
    intro prev i last
    rw [docLoop_cons_eq]
    simp [ih]

theorem docLoop_get?_zero {ws : List String} {w0 : String} (prev : String) (i last : Nat)
    (h : ws.get? 0 = some w0) :
    ((docLoop ws prev i last).2).get? 0 = some (if w0 = prev then last else i) := by
  cases ws with
  | nil => simp at h
  | cons w ws =>
    simp at h
    subst h
    rw [docLoop_cons_eq]
    simp

theorem docLoop_get?_succ :
    ∀ (ws : List String) (prev : String) (i last : Nat) (j : Nat) (w1 w2 : String),
      ws.get? j = some w1 → ws.get? (j + 1) = some w2 →
      ((docLoop ws prev i last).2).get? (j + 1) =
        some (if w2 = w1 then ((docLoop ws prev i last).2).getD j 0 else i + (j + 1)) := by
  intro ws
  induction ws with
  | nil => intro prev i last j w1 w2 h1 h2; simp at h1
  | cons w ws ih =>
    intro prev i last j w1 w2 h1 h2
    rw [docLoop_cons_eq]
    cases j with
    | zero =>
      simp at h1
      subst h1
      have h2' : ws.get? 0 = some w2 := by simpa using h2
      simp only [List.get?]
      rw [docLoop_get?_zero w (i + 1) (if w = prev then last else i) h2']
      simp [List.getD]
    | succ n =>
      have h1' : ws.get? n = some w1 := by simpa using h1
      have h2' : ws.get? (n + 1) = some w2 := by simpa using h2
      simp only [List.get?]
      rw [ih w (i + 1) (if w = prev then last else i) n w1 w2 h1' h2']
      have harith : i + 1 + (n + 1) = i + (n + 1 + 1) := by omega
      simp [List.getD, harith]

theorem docLoop_get?_le :
    ∀ (ws : List String) (prev : String) (i last : Nat) (j v : Nat),
      last ≤ i → ((docLoop ws prev i last).2).get? j = some v → v ≤ i + j := by
  intro ws
  induction ws with
  | nil => intro prev i last j v _ h; simp [docLoop] at h
  | cons w ws ih =>
    intro prev i last j v hle h
    rw [docLoop_cons_eq] at h
    cases j with
    | zero =>
      simp at h
      by_cases hw : w = prev
      · simp [hw] at h; omega
      · simp [hw] at h; omega
    | succ n =>
      have h' : ((docLoop ws w (i + 1) (if w = prev then last else i)).2).get? n = some v := by
        simpa using h
      have hle' : (if w = prev then last else i) ≤ i + 1 := by
        by_cases hw : w = prev <;> simp [hw] <;> omega
      have := ih w (i + 1) (if w = prev then last else i) n v hle' h'
      omega

theorem docLoop_fst_cons {w prev : String} (ws : List String) (i last : Nat) (h : w ≠ prev) :
    (docLoop (w :: ws) prev i last).1 = w :: (docLoop ws w (i + 1) i).1 := by
  rw [docLoop_cons_eq]
  simp [h]

theorem exists_get?_of_lt {α : Type} {l : List α} {i : Nat} (h : i < l.length) :
    ∃ a, l.get? i = some a := by
  cases hg : l.get? i with
  | none =>
    rw [List.get?_eq_none] at hg
    omega
  | some a => exact ⟨a, rfl⟩

theorem docLoop_groupStart (W : List String) :
    ∀ (j s : Nat), ((docLoop W "" 0 0).2).get? j = some s → GroupStart W s j := by
  intro j
  induction j with
  | zero =>
    intro s hs
    have hW : 0 < W.length := by
      have := get?_some_lt hs
      rwa [docLoop_snd_length] at this
    obtain ⟨w0, hw0⟩ := exists_get?_of_lt hW
    rw [docLoop_get?_zero "" 0 0 hw0] at hs
    have hs0 : s = 0 := by
      by_cases h0 : w0 = "" <;> simp [h0] at hs <;> omega
    subst hs0
    exact ⟨Nat.le_refl 0, Or.inl rfl, fun m hm1 hm2 => by omega⟩
  | succ n ih =>
    intro s hs
    have hlt : n + 1 < W.length := by
      have := get?_some_lt hs
      rwa [docLoop_snd_length] at this
    obtain ⟨w2, hw2⟩ := exists_get?_of_lt hlt
    obtain ⟨w1, hw1⟩ := exists_get?_of_lt (show n < W.length by omega)
    rw [docLoop_get?_succ W "" 0 0 n w1 w2 hw1 hw2] at hs
    by_cases he : w2 = w1
    · simp only [he, if_pos rfl, Option.some.injEq] at hs
      have hn : n < ((docLoop W "" 0 0).2).length := by
        rw [docLoop_snd_length]
        omega
      obtain ⟨s', hs'⟩ := exists_get?_of_lt hn
      have hgd : ((docLoop W "" 0 0).2).getD n 0 = s' := getD_of_get? 0 hs'
      rw [hgd] at hs
      subst hs
      have hgs := ih s' hs'
      refine ⟨hgs.1.trans (Nat.le_succ n), hgs.2.1, ?_⟩
      intro m hm1 hm2
      rcases Nat.lt_or_ge m (n + 1) with hm | hm
      · exact hgs.2.2 m hm1 (by omega)
      · have hm' : m = n + 1 := by omega
        subst hm'
        rw [hw2]
        simp only [Nat.add_sub_cancel]
        rw [hw1, he]
    · rw [if_neg he] at hs
      have hs1 : s = n + 1 := by
        have := Option.some.inj hs
        omega
      subst hs1
      refine ⟨Nat.le_refl _, Or.inr ?_, ?_⟩
      · simp only [Nat.add_sub_cancel]
        rw [hw1, hw2]
        intro hc
        have hww : w1 = w2 := by simpa using hc
        exact he hww.symm
      · intro m hm1 hm2
        omega

theorem docLoop_monotone (W : List String) (j a b : Nat)
    (ha : ((docLoop W "" 0 0).2).get? j = some a)
    (hb : ((docLoop W "" 0 0).2).get? (j + 1) = some b) : a ≤ b := by
  have hlt : j + 1 < W.length := by
    have := get?_some_lt hb
    rwa [docLoop_snd_length] at this
  obtain ⟨w2, hw2⟩ := exists_get?_of_lt hlt
  obtain ⟨w1, hw1⟩ := exists_get?_of_lt (show j < W.length by omega)
  rw [docLoop_get?_succ W "" 0 0 j w1 w2 hw1 hw2] at hb
  have hbound : a ≤ 0 + j := docLoop_get?_le W "" 0 0 j a (Nat.le_refl 0) ha
  by_cases he : w2 = w1
  · rw [if_pos he] at hb
    have h1 := Option.some.inj hb
    have hgd : ((docLoop W "" 0 0).2).getD j 0 = a := getD_of_get? 0 ha
    omega
  · rw [if_neg he] at hb
    have h1 := Option.some.inj hb
    omega

theorem docLoop_repeat (W : List String) (j : Nat)
    (heq : W.get? (j + 1) = W.get? j) :
    ((docLoop W "" 0 0).2).get? (j + 1) = ((docLoop W "" 0 0).2).get? j := by
  rcases Nat.lt_or_ge (j + 1) W.length with hlt | hge
  · obtain ⟨w2, hw2⟩ := exists_get?_of_lt hlt
    obtain ⟨w1, hw1⟩ := exists_get?_of_lt (show j < W.length by omega)
    have he : w2 = w1 := by
      rw [hw1, hw2] at heq
      simpa using heq
    rw [docLoop_get?_succ W "" 0 0 j w1 w2 hw1 hw2, if_pos he]
    have hn : j < ((docLoop W "" 0 0).2).length := by
      rw [docLoop_snd_length]
      omega
    obtain ⟨a, ha⟩ := exists_get?_of_lt hn
    rw [ha, getD_of_get? 0 ha]
  · have hlen := docLoop_snd_length W "" 0 0
    rw [List.get?_eq_none.mpr (by omega)]
    rcases Nat.lt_or_ge j W.length with hj | hj
    · obtain ⟨a, ha⟩ := exists_get?_of_lt hj
      rw [List.get?_eq_none.mpr (by omega), ha] at heq
      simp at heq
    · rw [List.get?_eq_none.mpr (by omega)]

/-! ## Unfolding successful construction -/

theorem NewDocument_ok {text : String} {K : Nat} {d : Document}
    (hd : NewDocument text K = .ok d) :
    2 ≤ K ∧ 2 ≤ (sortedWords text).length ∧
      d.unique_words = (docLoop (sortedWords text) "" 0 0).1 ∧
      d.wordtopics_indices = (docLoop (sortedWords text) "" 0 0).2 ∧
      d.wordtopics = List.replicate (sortedWords text).length 0 ∧
      d.topic_histogram =
        (List.replicate K (0 : Int)).set 0 ((sortedWords text).length : Int) := by
  rw [NewDocument] at hd
  by_cases h1 : K ≤ 1
  · simp [h1] at hd
  · simp only [if_neg h1] at hd
    by_cases h2 : (sortedWords text).length ≤ 1
    · simp [h2] at hd
    · simp only [if_neg h2] at hd
      split at hd
      · cases hd
        exact ⟨by omega, by omega, rfl, rfl, rfl, rfl⟩
      · cases hd

/-! ## Characterizing successful cursor operations -/

theorem next_ok {s s' : IterState} (h : s.next = .ok s') :
    s'.doc = s.doc ∧
      (s'.word_topic_index = s.word_topic_index + 1) ∧
      (s'.unique_word_index = s.unique_word_index ∨
        s'.unique_word_index = s.unique_word_index + 1) := by
  unfold IterState.next IterState.doneCheck at h
  by_cases hc : s.doc.unique_words.length < s.unique_word_index
  · simp [hc] at h
  · simp only [if_neg hc] at h
    cases hdb : s.doneB with
    | true => rw [hdb] at h; simp at h
    | false =>
      rw [hdb] at h
      simp only at h
      by_cases hlen : s.doc.wordtopics.length ≤ s.word_topic_index + 1
      · rw [if_pos hlen] at h
        cases h
        exact ⟨rfl, rfl, Or.inr rfl⟩
      · rw [if_neg hlen] at h
        cases hidx : s.doc.wordtopics_indices.get? (s.unique_word_index + 1) with
        | none => rw [hidx] at h; simp at h
        | some bound =>
          rw [hidx] at h
          simp only at h
          by_cases hb : bound ≤ s.word_topic_index + 1
          · rw [if_pos hb] at h
            cases h
            exact ⟨rfl, rfl, Or.inr rfl⟩
          · rw [if_neg hb] at h
            cases h
            exact ⟨rfl, rfl, Or.inl rfl⟩

theorem setTopic_ok {s : IterState} {t : Nat} {s' : IterState}
    (h : s.setTopic t = .ok s') :
    ∃ old cnt,
      s.doc.wordtopics.get? s.word_topic_index = some old ∧
      s.doc.topic_histogram.get? old = some cnt ∧
      t < s.doc.topic_histogram.length ∧
      s' = ⟨⟨s.doc.unique_words, s.doc.wordtopics_indices,
              s.doc.wordtopics.set s.word_topic_index t,
              (s.doc.topic_histogram.set old (cnt - 1)).set t
                ((s.doc.topic_histogram.set old (cnt - 1)).getD t 0 + 1)⟩,
            s.unique_word_index, s.word_topic_index⟩ := by
  unfold IterState.setTopic IterState.doneCheck at h
  by_cases hc : s.doc.unique_words.length < s.unique_word_index
  · simp [hc] at h
  · simp only [if_neg hc] at h
    cases hdb : s.doneB with
    | true => rw [hdb] at h; simp at h
    | false =>
      rw [hdb] at h
      simp only at h
      by_cases ht : s.doc.topic_histogram.length ≤ t
      · rw [if_pos ht] at h
        simp at h
      · rw [if_neg ht] at h
        cases hold : s.doc.wordtopics.get? s.word_topic_index with
        | none => rw [hold] at h; simp at h
        | some old =>
          rw [hold] at h
          simp only at h
          cases hcnt : s.doc.topic_histogram.get? old with
          | none => rw [hcnt] at h; simp at h
          | some cnt =>
            rw [hcnt] at h
            simp only at h
            cases h
            exact ⟨old, cnt, rfl, hcnt, by omega, rfl⟩

/-! ## Histogram synchronization invariant -/

theorem histSynced_init {text : String} {K : Nat} {d : Document}
    (hd : NewDocument text K = .ok d) : HistSynced d := by
  obtain ⟨hK, hN, _, _, hwt, hhist⟩ := NewDocument_ok hd
  constructor
  · intro t ht
    rw [hhist] at ht ⊢
    rw [hwt]
    have hlen :
        ((List.replicate K (0 : Int)).set 0 ((sortedWords text).length : Int)).length = K := by
      simp
    rw [hlen] at ht
    by_cases h0 : t = 0
    · subst h0
      rw [List.get?_set_eq_of_lt _ (by simp; omega)]
      simp
    · rw [List.get?_set_ne _ _ (fun hc => h0 hc.symm)]
      rw [List.get?_eq_getElem?]
      simp [List.getElem?_replicate, ht]
      rw [List.count_replicate]
      have h0' : ¬ ((0 : Nat) = t) := fun hc => h0 hc.symm
      simp [h0']
  · rw [hhist, hwt]
    rw [sum_set_int _ 0 _ (by simp; omega)]
    simp

theorem histSynced_setTopic {s : IterState} {t : Nat} {s' : IterState}
    (hinv : HistSynced s.doc) (h : s.setTopic t = .ok s') : HistSynced s'.doc := by
  obtain ⟨old, cnt, hold, hcnt, ht, hs'⟩ := setTopic_ok h
  have hwti : s.word_topic_index < s.doc.wordtopics.length := get?_some_lt hold
  have holdlt : old < s.doc.topic_histogram.length := get?_some_lt hcnt
  have hcnt_eq : cnt = (s.doc.wordtopics.count old : Int) := by
    have hx := hinv.1 old holdlt
    rw [hcnt] at hx
    exact Option.some.inj hx
  subst hs'
  constructor
  · intro u hu
    have hu' : u < s.doc.topic_histogram.length := by simpa using hu
    have hcount := count_set_int s.doc.wordtopics s.word_topic_index old t u hold
    by_cases hut : u = t
    · subst hut
      rw [List.get?_set_eq_of_lt _ (show u < (s.doc.topic_histogram.set old (cnt - 1)).length by
        simpa using hu')]
      apply congrArg some
      by_cases huo : u = old
      · subst huo
        have hget : (s.doc.topic_histogram.set u (cnt - 1)).get? u = some (cnt - 1) :=
          List.get?_set_eq_of_lt _ holdlt
        rw [getD_of_get? 0 hget, hcount]
        simp only [if_pos rfl]
        omega
      · have hget : (s.doc.topic_histogram.set old (cnt - 1)).get? u =
            some ((s.doc.wordtopics.count u : Int)) := by
          rw [List.get?_set_ne _ _ (fun hc => huo hc.symm)]
          exact hinv.1 u hu'
        rw [getD_of_get? 0 hget, hcount]
        have hou : ¬ (old = u) := fun hc => huo hc.symm
        split_ifs <;> omega
    · rw [List.get?_set_ne _ _ (fun hc => hut hc.symm)]
      by_cases huo : u = old
      · subst huo
        rw [List.get?_set_eq_of_lt _ holdlt]
        apply congrArg some
        rw [hcount]
        have htu : ¬ (t = u) := fun hc => hut hc.symm
        simp [htu]
        omega
      · rw [List.get?_set_ne _ _ (fun hc => huo hc.symm)]
        rw [hinv.1 u hu']
        apply congrArg some
        rw [hcount]
        have hou : ¬ (old = u) := fun hc => huo hc.symm
        have htu : ¬ (t = u) := fun hc => hut hc.symm
        simp only [if_neg hou, if_neg htu]
        omega
  · have hgetD_old : s.doc.topic_histogram.getD old 0 = cnt := getD_of_get? 0 hcnt
    have hsum1 : (s.doc.topic_histogram.set old (cnt - 1)).sum =
        s.doc.topic_histogram.sum - cnt + (cnt - 1) := by
      rw [sum_set_int _ _ _ holdlt, hgetD_old]
    have ht1 : t < (s.doc.topic_histogram.set old (cnt - 1)).length := by simpa using ht
    rw [sum_set_int _ _ _ ht1, hsum1]
    have hlen2 : (s.doc.wordtopics.set s.word_topic_index t).length =
        s.doc.wordtopics.length := List.length_set _ _ _
    rw [hlen2]
    have hsum0 := hinv.2
    omega

theorem run_histSynced : ∀ (ops : List CursorOp) (s s' : IterState),
    HistSynced s.doc → s.run ops = .ok s' → HistSynced s'.doc := by
  intro ops
  induction ops with
  | nil =>
    intro s s' hinv h
    rw [IterState.run] at h
    cases h
    exact hinv
  | cons op ops ih =>
    intro s s' hinv h
    rw [IterState.run] at h
    cases hstep : s.step op with
    | error e => rw [hstep] at h; cases h
    | ok s1 =>
      rw [hstep] at h
      refine ih s1 s' ?_ h
      cases op with
      | advance =>
        have hnext : s.next = .ok s1 := by simpa [IterState.step] using hstep
        have hdoc := (next_ok hnext).1
        rw [hdoc]
        exact hinv
      | setTopic u =>
        have hset : s.setTopic u = .ok s1 := by simpa [IterState.step] using hstep
        exact histSynced_setTopic hinv hset

theorem topic_ok {s : IterState} {t : Nat} (h : s.topic = .ok t) :
    s.doc.wordtopics.get? s.word_topic_index = some t := by
  unfold IterState.topic IterState.doneCheck at h
  by_cases hc : s.doc.unique_words.length < s.unique_word_index
  · simp [hc] at h
  · simp only [if_neg hc] at h
    cases hdb : s.doneB with
    | true => rw [hdb] at h; simp at h
    | false =>
      rw [hdb] at h
      simp only at h
      cases hget : s.doc.wordtopics.get? s.word_topic_index with
      | none => rw [hget] at h; simp at h
      | some x =>
        rw [hget] at h
        simp only at h
        cases h
        rfl

theorem set_get?_self {α : Type} :
    ∀ (l : List α) (i : Nat) (v : α), l.get? i = some v → l.set i v = l := by
  intro l
  induction l with
  | nil => intro i v h; simp at h
  | cons x xs ih =>
    intro i v h
    cases i with
    | zero =>
      simp at h
      simp [h]
    | succ n =>
      have h' : xs.get? n = some v := by simpa using h
      simp [ih n v h']

theorem docLoop_fst_pos {w prev : String} (ws : List String) (i last : Nat) (h : w ≠ prev) :
    1 ≤ (docLoop (w :: ws) prev i last).1.length := by
  rw [docLoop_fst_cons ws i last h]
  simp

theorem NewDocument_isOk_iff (text : String) (K : Nat) :
    (∃ d, NewDocument text K = .ok d) ↔ (2 ≤ K ∧ 2 ≤ (documentTokens text).length) := by
  constructor
  · rintro ⟨d, hd⟩
    obtain ⟨hK, hN, _⟩ := NewDocument_ok hd
    rw [sortedWords_length] at hN
    exact ⟨hK, hN⟩
  · rintro ⟨hK, hN⟩
    have hlen : (sortedWords text).length = (documentTokens text).length :=
      sortedWords_length text
    have hN' : 2 ≤ (sortedWords text).length := by omega
    rw [NewDocument]
    rw [if_neg (show ¬ (K ≤ 1) by omega)]
    rw [if_neg (show ¬ ((sortedWords text).length ≤ 1) by omega)]
    have hvalid : (⟨(docLoop (sortedWords text) "" 0 0).1,
        (docLoop (sortedWords text) "" 0 0).2,
        List.replicate (sortedWords text).length 0,
        (List.replicate K (0 : Int)).set 0 ((sortedWords text).length : Int)⟩ :
          Document).IsValid = true := by
      unfold Document.IsValid
      have h1 : 1 ≤ (docLoop (sortedWords text) "" 0 0).1.length := by
        cases hws : sortedWords text with
        | nil => rw [hws] at hN'; simp at hN'
        | cons w ws =>
          have hwne : w ≠ "" :=
            mem_sortedWords_ne_empty (show w ∈ sortedWords text by rw [hws]; simp)
          exact docLoop_fst_pos ws 0 0 hwne
      have h2 : (docLoop (sortedWords text) "" 0 0).2.length =
          (List.replicate (sortedWords text).length (0 : Nat)).length := by
        rw [docLoop_snd_length]
        simp
      simp only [Bool.and_eq_true, beq_iff_eq, decide_eq_true_eq]
      refine ⟨⟨⟨h1, h2⟩, by simp; omega⟩, by simp; omega⟩
    rw [if_pos hvalid]
    exact ⟨_, rfl⟩

/-! ## Claim theorems -/

/-- C1: the claim says a cursor visits exactly N occurrences.  The code
violates it: `Next` advances `unique_word_index` on every step (it reads
`wordtopics_indices[unique_word_index+1]`, a per-occurrence array, as if
it were indexed by word ordinal), so the cursor on the 3-occurrence
document built from "the cat the" is done after visiting only 2
occurrences. -/
theorem C1_iterator_skips_occurrences :
    ∃ d, NewDocument "the cat the" 2 = .ok d ∧
      NewWordIterator d = .ok ⟨d, 0, 0⟩ ∧
      d.wordtopics.length = 3 ∧
      countVisits 10 ⟨d, 0, 0⟩ = some 2 :=
  ⟨⟨["cat", "the"], [0, 1, 1], [0, 0, 0], [3, 0]⟩, rfl, rfl, rfl, rfl⟩

/-- C2: the claim says the offsets structure of the document built from
"The cat sat on the Mat." with 3 topics is `[0,1,2,3,4,6]` (U+1 entries,
last entry N).  The code builds `[0,1,2,3,4,4]`: one entry per occurrence
repeating the group start, with no final sentinel N; in general the array
has N entries, not U+1, as the document for "a a a" shows (U = 1, three
entries). -/
theorem C2_group_offsets_mismatch :
    (∃ d, NewDocument "The cat sat on the Mat." 3 = .ok d ∧
      d.unique_words = ["cat", "mat", "on", "sat", "the"] ∧
      d.wordtopics_indices = [0, 1, 2, 3, 4, 4] ∧
      d.wordtopics_indices ≠ [0, 1, 2, 3, 4, 6] ∧
      d.wordtopics.length = 6) ∧
    (∃ d2, NewDocument "a a a" 2 = .ok d2 ∧
      d2.unique_words.length = 1 ∧
      d2.wordtopics_indices.length = 3) := by
  constructor
  · exact ⟨_, rfl, rfl, rfl, by decide, rfl⟩
  · exact ⟨_, rfl, rfl, rfl⟩

/-- C4: the claim says the word reported at each stop is the distinct word
owning the occurrence at the cursor's position.  The code violates it: on
the document built from "a a b", after one advance the cursor sits at
occurrence 1 (the second "a" in the sorted occurrence array) but reports
the word "b". -/
theorem C4_word_ownership_mismatch :
    ∃ d s1, NewDocument "a a b" 2 = .ok d ∧
      NewWordIterator d = .ok ⟨d, 0, 0⟩ ∧
      IterState.next ⟨d, 0, 0⟩ = .ok s1 ∧
      s1.word_topic_index = 1 ∧
      s1.word = .ok "b" ∧
      (sortedWords "a a b").get? 1 = some "a" ∧
      ("b" : String) ≠ "a" := by
  refine ⟨_, _, rfl, rfl, rfl, rfl, rfl, rfl, by decide⟩

/-- C6: the claim says a line at or above the 15-character threshold is
passed to `build_document` and an oversized (`isPrefix`) line fails the
whole load.  The code violates both: it passes only lines with length
strictly greater than 15 (a 15-character line is skipped, first
conjunct), and it tests the `is_prefix` flag of the first read only, so
an oversized second line is silently processed as an ordinary line
(second conjunct).  Only a first-read prefix flag errors (third
conjunct), and a qualifying line that fails construction does halt the
load (fourth conjunct). -/
theorem C6_ingestion_filtering :
    LoadCorpus [("abcde fghi klmn", false)] 3 = .ok [] ∧
    (∃ d1 d2, LoadCorpus
        [("this is a long first line", false),
          ("oversized line fragment content", true)] 2 = .ok [d1, d2]) ∧
    LoadCorpus [("x", true)] 2 = .error "Encountered a long line:x" ∧
    (∃ e, LoadCorpus [("!!!!!!!!!!!!!!!!!!!!", false)] 2 = .error e) := by
  refine ⟨rfl, ⟨_, _, rfl⟩, rfl, ⟨_, rfl⟩⟩

/-- C5: `build_document` fails if and only if `num_topics < 2` or the
normalized text yields fewer than 2 tokens; in particular the empty text
and a one-word text fail for every K, and "a b" with one topic fails. -/
theorem C5_construction_rejection :
    (∀ (text : String) (K : Nat),
      (∃ d, NewDocument text K = .ok d) ↔ (2 ≤ K ∧ 2 ≤ (documentTokens text).length)) ∧
    (∀ K, ¬ ∃ d, NewDocument "" K = .ok d) ∧
    (∀ K, ¬ ∃ d, NewDocument "single" K = .ok d) ∧
    (¬ ∃ d, NewDocument "a b" 1 = .ok d) := by
  refine ⟨NewDocument_isOk_iff, ?_, ?_, ?_⟩
  · intro K h
    have hc := ((NewDocument_isOk_iff "" K).mp h).2
    have hz : (documentTokens "").length = 0 := by decide
    omega
  · intro K h
    have hc := ((NewDocument_isOk_iff "single" K).mp h).2
    have hz : (documentTokens "single").length = 1 := by decide
    omega
  · intro h
    have hc := ((NewDocument_isOk_iff "a b" 1).mp h).1
    omega

/-- Witness for C5: "a b" with two topics builds successfully. -/
theorem C5_construction_rejection_witness :
    ∃ d, NewDocument "a b" 2 = .ok d :=
  (C5_construction_rejection.1 "a b" 2).mpr ⟨by omega, by decide⟩

/-- C7: calling `set_topic(t)` when the occurrence at the cursor's
position is already labeled `t` leaves the topic histogram unchanged:
the decrement of `topic_histogram[old]` and the increment of
`topic_histogram[t]` hit the same entry. -/
theorem C7_idempotent_relabel (s : IterState) (t : Nat) (s' : IterState)
    (htop : s.topic = .ok t) (hset : s.setTopic t = .ok s') :
    s'.doc.topic_histogram = s.doc.topic_histogram := by
  obtain ⟨old, cnt, hold, hcnt, ht, hs'⟩ := setTopic_ok hset
  have hot : old = t := by
    have hx := topic_ok htop
    rw [hold] at hx
    exact Option.some.inj hx
  subst hot
  subst hs'
  have hlt : old < s.doc.topic_histogram.length := get?_some_lt hcnt
  have hgd : (s.doc.topic_histogram.set old (cnt - 1)).get? old = some (cnt - 1) :=
    List.get?_set_eq_of_lt _ hlt
  show (s.doc.topic_histogram.set old (cnt - 1)).set old
      ((s.doc.topic_histogram.set old (cnt - 1)).getD old 0 + 1) =
    s.doc.topic_histogram
  rw [getD_of_get? 0 hgd, List.set_set]
  have hc1 : cnt - 1 + 1 = cnt := by omega
  rw [hc1]
  exact set_get?_self _ _ _ hcnt

/-- Witness for C7: on the document for "a b", relabeling the current
occurrence with its current topic 0 leaves the histogram `[2, 0]`
untouched. -/
theorem C7_idempotent_relabel_witness :
    (⟨⟨["a", "b"], [0, 1], [0, 0], [2, 0]⟩, 0, 0⟩ : IterState).doc.topic_histogram =
      (⟨⟨["a", "b"], [0, 1], [0, 0], [2, 0]⟩, 0, 0⟩ : IterState).doc.topic_histogram :=
  C7_idempotent_relabel ⟨⟨["a", "b"], [0, 1], [0, 0], [2, 0]⟩, 0, 0⟩ 0
    ⟨⟨["a", "b"], [0, 1], [0, 0], [2, 0]⟩, 0, 0⟩ rfl rfl

theorem isValid_iff (d : Document) :
    d.IsValid = true ↔
      (1 ≤ d.unique_words.length ∧
        d.wordtopics_indices.length = d.wordtopics.length ∧
        2 ≤ d.wordtopics.length ∧ 2 ≤ d.topic_histogram.length) := by
  simp [Document.IsValid, and_assoc]

/-- C8 is refuted on the code: this document is not sorted (words "b"
then "a") and its histogram `[7, 7]` disagrees with its all-zero labels,
yet `NewWordIterator` hands out a cursor, because `IsValid` checks only
the four length conditions. -/
theorem C8_cursor_validity_counterexample :
    NewWordIterator ⟨["b", "a"], [0, 1], [0, 0], [7, 7]⟩ =
        .ok ⟨⟨["b", "a"], [0, 1], [0, 0], [7, 7]⟩, 0, 0⟩ ∧
      (⟨["b", "a"], [0, 1], [0, 0], [7, 7]⟩ : Document).unique_words.get? 0 = some "b" ∧
      (⟨["b", "a"], [0, 1], [0, 0], [7, 7]⟩ : Document).unique_words.get? 1 = some "a" ∧
      strLt "a" "b" = true ∧
      ¬ HistSynced ⟨["b", "a"], [0, 1], [0, 0], [7, 7]⟩ := by
  refine ⟨rfl, rfl, rfl, rfl, ?_⟩
  intro hsync
  have hx := hsync.1 0 (by decide)
  exact absurd hx (by decide)

/-- C8 amended: opening a cursor fails exactly when the document fails
the code's validity check, which tests only U ≥ 1, offsets length = N,
N ≥ 2 and K ≥ 2; sortedness, uniqueness, offset monotonicity/bracketing
and histogram synchronization are not checked. -/
theorem C8_cursor_validity_amended (d : Document) :
    (∃ it, NewWordIterator d = .ok it) ↔
      (1 ≤ d.unique_words.length ∧
        d.wordtopics_indices.length = d.wordtopics.length ∧
        2 ≤ d.wordtopics.length ∧ 2 ≤ d.topic_histogram.length) := by
  rw [← isValid_iff]
  unfold NewWordIterator
  constructor
  · rintro ⟨it, hit⟩
    by_cases hv : d.IsValid = true
    · exact hv
    · rw [if_neg hv] at hit
      cases hit
  · intro hv
    exact ⟨⟨d, 0, 0⟩, by rw [if_pos hv]⟩

/-- Witness for the amended C8: a document passing the four length checks
receives a cursor. -/
theorem C8_cursor_validity_amended_witness :
    ∃ it, NewWordIterator ⟨["a", "b"], [0, 1], [0, 0], [2, 0]⟩ = .ok it :=
  (C8_cursor_validity_amended ⟨["a", "b"], [0, 1], [0, 0], [2, 0]⟩).mpr
    ⟨by decide, by decide, by decide, by decide⟩

/-- C9: cursor operations change only the occurrence labels and the topic
histogram.  `Next` leaves the document untouched; `SetTopic` preserves
the distinct-word list, the offsets structure, the occurrence count N
and the histogram length K, changes at most the label at the cursor's
current position, and changes at most the histogram entries of the old
and new topics. -/
theorem C9_frame_effect :
    (∀ (s s' : IterState), s.next = .ok s' → s'.doc = s.doc) ∧
      (∀ (s : IterState) (t : Nat) (s' : IterState), s.setTopic t = .ok s' →
        s'.doc.unique_words = s.doc.unique_words ∧
          s'.doc.wordtopics_indices = s.doc.wordtopics_indices ∧
          s'.doc.wordtopics.length = s.doc.wordtopics.length ∧
          s'.doc.topic_histogram.length = s.doc.topic_histogram.length ∧
          (∀ j, j ≠ s.word_topic_index →
            s'.doc.wordtopics.get? j = s.doc.wordtopics.get? j) ∧
          (∀ u, u ≠ t → s.doc.wordtopics.get? s.word_topic_index ≠ some u →
            s'.doc.topic_histogram.get? u = s.doc.topic_histogram.get? u)) := by
  constructor
  · intro s s' h
    exact (next_ok h).1
  · intro s t s' h
    obtain ⟨old, cnt, hold, hcnt, ht, hs'⟩ := setTopic_ok h
    subst hs'
    refine ⟨rfl, rfl, by simp, by simp, ?_, ?_⟩
    · intro j hj
      exact List.get?_set_ne _ _ (fun hc => hj hc.symm)
    · intro u hut hou
      have hou' : old ≠ u := fun hc => hou (by rw [hold, hc])
      rw [List.get?_set_ne _ _ (fun hc => hut hc.symm)]
      exact List.get?_set_ne _ _ hou'

/-- Witness for C9: a concrete `SetTopic 1` call on the document for
"a b" keeps the word list, the offsets, and the label at the position the
cursor is not on. -/
theorem C9_frame_effect_witness :
    (⟨⟨["a", "b"], [0, 1], [1, 0], [1, 1]⟩, 0, 0⟩ : IterState).doc.unique_words =
        (⟨⟨["a", "b"], [0, 1], [0, 0], [2, 0]⟩, 0, 0⟩ : IterState).doc.unique_words ∧
      (⟨⟨["a", "b"], [0, 1], [1, 0], [1, 1]⟩, 0, 0⟩ : IterState).doc.wordtopics_indices =
        (⟨⟨["a", "b"], [0, 1], [0, 0], [2, 0]⟩, 0, 0⟩ : IterState).doc.wordtopics_indices ∧
      (⟨⟨["a", "b"], [0, 1], [1, 0], [1, 1]⟩, 0, 0⟩ : IterState).doc.wordtopics.get? 1 =
        (⟨⟨["a", "b"], [0, 1], [0, 0], [2, 0]⟩, 0, 0⟩ : IterState).doc.wordtopics.get? 1 := by
  have hx := C9_frame_effect.2 ⟨⟨["a", "b"], [0, 1], [0, 0], [2, 0]⟩, 0, 0⟩ 1
    ⟨⟨["a", "b"], [0, 1], [1, 0], [1, 1]⟩, 0, 0⟩ rfl
  exact ⟨hx.1, hx.2.1, hx.2.2.2.2.1 1 (by decide)⟩

theorem newWordIterator_ok {d : Document} {it : IterState}
    (h : NewWordIterator d = .ok it) : it = ⟨d, 0, 0⟩ := by
  unfold NewWordIterator at h
  by_cases hv : d.IsValid = true
  · rw [if_pos hv] at h
    cases h
    rfl
  · rw [if_neg hv] at h
    cases h

/-- C10: in every successfully built document, the internal offsets array
has one entry per occurrence (its length equals the labels array's
length), starts at 0, is non-decreasing, repeats the previous entry
whenever the occurrence repeats the previous sorted word, and entry `j`
is the start position of the maximal run of equal sorted words containing
occurrence `j`. -/
theorem C10_offsets_per_occurrence (text : String) (K : Nat) (d : Document)
    (hd : NewDocument text K = .ok d) :
    d.wordtopics_indices.length = d.wordtopics.length ∧
      d.wordtopics_indices.get? 0 = some 0 ∧
      (∀ j a b, d.wordtopics_indices.get? j = some a →
        d.wordtopics_indices.get? (j + 1) = some b → a ≤ b) ∧
      (∀ j, (sortedWords text).get? (j + 1) = (sortedWords text).get? j →
        d.wordtopics_indices.get? (j + 1) = d.wordtopics_indices.get? j) ∧
      (∀ j s, d.wordtopics_indices.get? j = some s → GroupStart (sortedWords text) s j) := by
  obtain ⟨hK, hN, _, hidx, hwt, _⟩ := NewDocument_ok hd
  refine ⟨?_, ?_, ?_, ?_, ?_⟩
  · rw [hidx, hwt, docLoop_snd_length]
    simp
  · rw [hidx]
    obtain ⟨w0, hw0⟩ := exists_get?_of_lt (show 0 < (sortedWords text).length by omega)
    rw [docLoop_get?_zero "" 0 0 hw0]
    by_cases hz : w0 = "" <;> simp [hz]
  · intro j a b ha hb
    rw [hidx] at ha hb
    exact docLoop_monotone _ j a b ha hb
  · intro j heq
    rw [hidx]
    exact docLoop_repeat _ j heq
  · intro j s hs
    rw [hidx] at hs
    exact docLoop_groupStart _ j s hs

/-- Witness for C10: the offsets of the running-example document satisfy
all five conditions. -/
theorem C10_offsets_per_occurrence_witness :
    exampleDoc.wordtopics_indices.length = exampleDoc.wordtopics.length ∧
      exampleDoc.wordtopics_indices.get? 0 = some 0 ∧
      (∀ j a b, exampleDoc.wordtopics_indices.get? j = some a →
        exampleDoc.wordtopics_indices.get? (j + 1) = some b → a ≤ b) ∧
      (∀ j, (sortedWords "The cat sat on the Mat.").get? (j + 1) =
          (sortedWords "The cat sat on the Mat.").get? j →
        exampleDoc.wordtopics_indices.get? (j + 1) = exampleDoc.wordtopics_indices.get? j) ∧
      (∀ j s, exampleDoc.wordtopics_indices.get? j = some s →
        GroupStart (sortedWords "The cat sat on the Mat.") s j) :=
  C10_offsets_per_occurrence "The cat sat on the Mat." 3 exampleDoc rfl

/-- C3: for every successfully built document and every sequence of
cursor operations (advances and in-range `set_topic` calls) that
executes without error, the resulting histogram entry `t` equals the
number of occurrence labels equal to `t` for every `t` below K, and the
histogram entries sum to the occurrence count; immediately after
construction all labels are 0 and histogram entry 0 is N. -/
theorem C3_histogram_consistency (text : String) (K : Nat) (d : Document)
    (it : IterState) (ops : List CursorOp) (s' : IterState)
    (hd : NewDocument text K = .ok d)
    (hit : NewWordIterator d = .ok it)
    (hrun : it.run ops = .ok s') :
    (∀ t, t < s'.doc.topic_histogram.length →
        s'.doc.topic_histogram.get? t = some ((s'.doc.wordtopics.count t : Int))) ∧
      s'.doc.topic_histogram.sum = (s'.doc.wordtopics.length : Int) ∧
      d.wordtopics = List.replicate d.wordtopics.length 0 ∧
      d.topic_histogram.get? 0 = some ((d.wordtopics.length : Int)) := by
  have hinit : HistSynced d := histSynced_init hd
  have hit' := newWordIterator_ok hit
  subst hit'
  have hrun' := run_histSynced ops ⟨d, 0, 0⟩ s' hinit hrun
  refine ⟨hrun'.1, hrun'.2, ?_, ?_⟩
  · obtain ⟨_, _, _, _, hwt, _⟩ := NewDocument_ok hd
    rw [hwt]
    simp
  · obtain ⟨hK, hN, _, _, hwt, hh⟩ := NewDocument_ok hd
    have h0 : 0 < d.topic_histogram.length := by
      rw [hh]
      simp
      omega
    have hx := hinit.1 0 h0
    rw [hx, hwt]
    simp

/-- Witness for C3: on the document for "the cat the", running
`SetTopic 1`, `Next`, `SetTopic 0` yields labels `[1,0,0]` with histogram
`[2,1]`, which satisfies the consistency conditions. -/
theorem C3_histogram_consistency_witness :
    (∀ t, t < (⟨⟨["cat", "the"], [0, 1, 1], [1, 0, 0], [2, 1]⟩, 1, 1⟩ :
          IterState).doc.topic_histogram.length →
        (⟨⟨["cat", "the"], [0, 1, 1], [1, 0, 0], [2, 1]⟩, 1, 1⟩ :
            IterState).doc.topic_histogram.get? t =
          some (((⟨⟨["cat", "the"], [0, 1, 1], [1, 0, 0], [2, 1]⟩, 1, 1⟩ :
            IterState).doc.wordtopics.count t : Int))) ∧
      (⟨⟨["cat", "the"], [0, 1, 1], [1, 0, 0], [2, 1]⟩, 1, 1⟩ :
          IterState).doc.topic_histogram.sum =
        ((⟨⟨["cat", "the"], [0, 1, 1], [1, 0, 0], [2, 1]⟩, 1, 1⟩ :
          IterState).doc.wordtopics.length : Int) ∧
      (⟨["cat", "the"], [0, 1, 1], [0, 0, 0], [3, 0]⟩ : Document).wordtopics =
        List.replicate
          (⟨["cat", "the"], [0, 1, 1], [0, 0, 0], [3, 0]⟩ : Document).wordtopics.length 0 ∧
      (⟨["cat", "the"], [0, 1, 1], [0, 0, 0], [3, 0]⟩ : Document).topic_histogram.get? 0 =
        some (((⟨["cat", "the"], [0, 1, 1], [0, 0, 0], [3, 0]⟩ :
          Document).wordtopics.length : Int)) :=
  C3_histogram_consistency "the cat the" 2 ⟨["cat", "the"], [0, 1, 1], [0, 0, 0], [3, 0]⟩
    ⟨⟨["cat", "the"], [0, 1, 1], [0, 0, 0], [3, 0]⟩, 0, 0⟩
    [CursorOp.setTopic 1, CursorOp.advance, CursorOp.setTopic 0]
    ⟨⟨["cat", "the"], [0, 1, 1], [1, 0, 0], [2, 1]⟩, 1, 1⟩ rfl rfl rfl
